import Mathlib

/-!
# Verification of the caddy-cgi CGI gateway adapter

A shallow embedding of the core of the `caddy-cgi` repository
(`cgi.go`, `windows_cgi.go`) together with theorems settling the
specification claims about it.

Modelling conventions:
* Go byte strings (`string`, `[]byte`) are modelled as `List Nat`
  (one `Nat` per byte; all inputs of interest are ASCII).
* `http.Header` is a Go hash map from canonical MIME keys to value
  slices.  The map *contents* are modelled as an association list in
  first-insertion order (`headerAdd` appends a fresh key at the end,
  exactly as the Go map acquires a new key); the fact that Go's `range`
  over a map yields its entries in an *unspecified* order is modelled
  separately by the predicate `validRangeOrder`, which accepts any
  permutation of the entries (Go spec: "The iteration order over maps
  is not specified").
* `bufio.Reader` byte streams are modelled as a `List Nat` of the
  remaining bytes plus a `ReadEnd` describing what the underlying
  reader reports once the bytes are exhausted (`io.EOF`, or some other
  read error).  `bufio.Reader.Peek n` returns a nil error iff `n`
  bytes are still available, which in the model is a pattern match on
  the tail of the byte list.
* Fallible Go functions returning `(..., err)` become `Except`.
-/

deriving instance DecidableEq for Except

namespace CaddyCGI

/-- Go strings / byte slices as lists of byte values. -/
abbrev Str := List Nat

/-- Convenience: build a byte list from an ASCII Lean string literal. -/
def str (s : String) : Str := s.toList.map Char.toNat

/-- What the underlying reader reports after its bytes run out:
`io.EOF`, or some other read error (identified by a numeric tag). -/
inductive ReadEnd where
  | eof : ReadEnd
  | err (e : Nat) : ReadEnd
deriving DecidableEq, Repr

/-- `readWindowsLine` from `windows_cgi.go`: reads one line from the
stream, handling `\n`, `\r\n` and the Windows `\r\r\n` pattern.  The
first argument is the `line` accumulator (`var line []byte`), the
second the remaining bytes of the stream, the third what the reader
reports at the end of those bytes.  Result: the line and the remaining
stream, or the propagated read error.  The `bufio.Peek(2)` call after
reading a `'\r'` returns a nil error exactly when two more bytes are
available, hence the nested match on the tail. -/
def readWindowsLine (line : Str) : Str → ReadEnd → Except ReadEnd (Str × Str)
  | [], re =>
    -- ReadByte fails: io.EOF with pending bytes yields the line,
    -- otherwise the error is returned.
    match re with
    | .eof => if line = [] then .error .eof else .ok (line, [])
    | .err e => .error (.err e)
  | b :: rest, re =>
    if b = 10 then
      -- '\n': end of line found
      .ok (line, rest)
    else if b = 13 then
      -- '\r': Peek(2)
      match rest with
      | p1 :: p2 :: tail =>
        -- Peek succeeded with a nil error (two bytes available)
        if p1 = 13 ∧ p2 = 10 then
          -- \r\r\n: consume the second \r and the \n
          .ok (line, tail)
        else if p1 = 10 then
          -- \r\n: consume the \n
          .ok (line, p2 :: tail)
        else
          -- standalone \r, add to line
          readWindowsLine (line ++ [b]) rest re
      | _ =>
        -- Peek returned fewer than 2 bytes, hence a non-nil error:
        -- both peek branches are skipped, standalone \r
        readWindowsLine (line ++ [b]) rest re
    else
      readWindowsLine (line ++ [b]) rest re

example : readWindowsLine [] (str "ab\nc") .eof = .ok (str "ab", str "c") := by decide

example : readWindowsLine [] (str "ab\r\nc") .eof = .ok (str "ab", str "c") := by decide

example : readWindowsLine [] (str "ab\r\r\nc") .eof = .ok (str "ab", str "c") := by decide

-- the \r\n-at-end-of-stream anomaly: the \r stays in the line
example : readWindowsLine [] (str "ab\r\n") .eof = .ok (str "ab\r", []) := by decide

example : readWindowsLine [] (str "ab") .eof = .ok (str "ab", []) := by decide

example : readWindowsLine [] [] .eof = .error .eof := by decide

example : readWindowsLine [] (str "ab") (.err 7) = .error (.err 7) := by decide

/-! ## Strings: `strings.ToLower`, `strings.TrimSpace`, `strings.SplitN`,
`strconv.Atoi` (ASCII fragment, as exercised by the code) -/

/-- ASCII branch of `unicode.ToLower` as used by `strings.ToLower`. -/
def lowerByte (b : Nat) : Nat := if 65 ≤ b ∧ b ≤ 90 then b + 32 else b

/-- ASCII branch of `unicode.ToUpper` as used by `strings.ToUpper`. -/
def upperByte (b : Nat) : Nat := if 97 ≤ b ∧ b ≤ 122 then b - 32 else b

/-- `strings.ToLower` (ASCII). -/
def lowerStr (s : Str) : Str := s.map lowerByte

/-- `strings.ToUpper` (ASCII). -/
def upperStr (s : Str) : Str := s.map upperByte

/-- `unicode.IsSpace` restricted to the ASCII range (space, \t, \n, \v,
\f, \r), which is all the header bytes in play. -/
def isSpaceByte (b : Nat) : Bool := b == 32 || (9 ≤ b && b ≤ 13)

/-- `strings.TrimSpace` (ASCII): drop leading and trailing whitespace. -/
def trimSpace (s : Str) : Str :=
  ((s.dropWhile isSpaceByte).reverse.dropWhile isSpaceByte).reverse

/-- `strings.SplitN(line, ":", 2)`: `none` when the line holds no `':'`
(Go returns a single-element slice, `len(parts) != 2`), otherwise the
parts before and after the first `':'`. -/
def splitOnceColon : Str → Option (Str × Str)
  | [] => none
  | b :: t =>
    if b = 58 then some ([], t)
    else match splitOnceColon t with
      | some (pre, post) => some (b :: pre, post)
      | none => none

/-- ASCII digit test. -/
def isDigitByte (b : Nat) : Bool := 48 ≤ b && b ≤ 57

/-- Value of a nonempty all-digit byte string, else `none`. -/
def digitsVal (ds : Str) : Option Nat :=
  if ds = [] then none
  else if ds.all isDigitByte then
    some (ds.foldl (fun a d => a * 10 + (d - 48)) 0)
  else none

/-- `strconv.Atoi`: optional sign followed by digits, whole string.
(The overflow checks of `strconv` cannot trigger on the ≤ 3 byte
inputs this code feeds it, so they are elided.) -/
def atoi (s : Str) : Option Int :=
  match s with
  | 45 :: t => (digitsVal t).map (fun n => -(n : Int))
  | 43 :: t => (digitsVal t).map (fun n => (n : Int))
  | _ => (digitsVal s).map (fun n => (n : Int))

example : atoi (str "404") = some 404 := by decide
example : atoi (str "abc") = none := by decide
example : atoi (str "-12") = some (-12) := by decide
example : atoi (str "4 4") = none := by decide

/-! ## `http.Header` (a Go map keyed by canonical MIME header keys) -/

/-- `textproto.validHeaderFieldByte`: the HTTP token characters. -/
def validHeaderFieldByte (b : Nat) : Bool :=
  (48 ≤ b && b ≤ 57) || (65 ≤ b && b ≤ 90) || (97 ≤ b && b ≤ 122) ||
  b == 33 || b == 35 || b == 36 || b == 37 || b == 38 || b == 39 ||
  b == 42 || b == 43 || b == 45 || b == 46 || b == 94 || b == 95 ||
  b == 96 || b == 124 || b == 126

/-- The case-mangling loop of `textproto.canonicalMIMEHeaderKey`:
upper-case a letter at the start or after a `'-'` (45), lower-case it
otherwise. -/
def canonLoop : Bool → Str → Str
  | _, [] => []
  | up, c :: t =>
    let c' := if up then upperByte c else lowerByte c
    c' :: canonLoop (c' = 45) t

/-- `textproto.CanonicalMIMEHeaderKey`: keys holding a non-token byte
are returned unchanged, token keys are case-canonicalised. -/
def canonicalMIMEHeaderKey (k : Str) : Str :=
  if k.all validHeaderFieldByte then canonLoop true k else k

example : canonicalMIMEHeaderKey (str "x-foo") = str "X-Foo" := by decide
example : canonicalMIMEHeaderKey (str "CONTENT-type") = str "Content-Type" := by decide
example : canonicalMIMEHeaderKey (str "x foo") = str "x foo" := by decide

/-- The contents of an `http.Header` map: association list from key to
the ordered slice of values.  The list order is first-insertion order
(how the entries would be appended by `headerAddRaw`); nothing in the
Go map makes this order observable — `range` order is modelled by
`validRangeOrder` below. -/
abbrev Header := List (Str × List Str)

/-- Map lookup `h[key]` (zero value `[]` when the key is absent). -/
def headerValues : Header → Str → List Str
  | [], _ => []
  | (k', vs) :: t, k => if k' = k then vs else headerValues t k

/-- `textproto.MIMEHeader.Add` after key canonicalisation:
`h[key] = append(h[key], value)`. -/
def headerAddRaw : Header → Str → Str → Header
  | [], k, v => [(k, [v])]
  | (k', vs) :: t, k, v =>
    if k' = k then (k', vs ++ [v]) :: t else (k', vs) :: headerAddRaw t k v

/-- `http.Header.Add`: canonicalise the key, then append the value. -/
def headerAdd (h : Header) (k v : Str) : Header :=
  headerAddRaw h (canonicalMIMEHeaderKey k) v

/-- Removal of a key from the map contents. -/
def headerDelRaw : Header → Str → Header
  | [], _ => []
  | (k0, vs) :: t, k => if k0 = k then headerDelRaw t k else (k0, vs) :: headerDelRaw t k

/-- `http.Header.Del`: `delete(h, CanonicalMIMEHeaderKey(key))`. -/
def headerDel (h : Header) (k : Str) : Header :=
  headerDelRaw h (canonicalMIMEHeaderKey k)

/-- `http.Header.Get`: first value under the canonical key, `""` when
absent. -/
def headerGetFirst (h : Header) (k : Str) : Str :=
  match headerValues h (canonicalMIMEHeaderKey k) with
  | v :: _ => v
  | [] => []

/-- A possible order in which Go's `range` over the header map can
yield its entries: any permutation of them ("The iteration order over
maps is not specified", Go spec). -/
def validRangeOrder (h : Header) (ord : List (Str × List Str)) : Prop :=
  ord.Perm h

/-- The inner loop of the header application in `ServeHTTP`
(windows_cgi.go 81–85): `for _, value := range values
{ rw.Header().Add(key, value) }`. -/
def applyHeader (rw : Header) (key : Str) (values : List Str) : Header :=
  values.foldl (fun h v => headerAdd h key v) rw

/-- The header application of `ServeHTTP`: `for key, values := range
headers { ... }`, with the `range` order made explicit (`ord` must be
a `validRangeOrder` of the parsed header map). -/
def applyHeaders (rw : Header) (ord : List (Str × List Str)) : Header :=
  ord.foldl (fun h kv => applyHeader h kv.1 kv.2) rw

/-- All values of entries of `ord` whose canonical key is `k`, in
entry order: what `applyHeaders` appends under `k`. -/
def gatherValues (ord : List (Str × List Str)) (k : Str) : List Str :=
  ((ord.filter (fun kv => canonicalMIMEHeaderKey kv.1 == k)).map Prod.snd).flatten

/-! ## `parseWindowsHeaders` (windows_cgi.go) -/

/-- The per-line body of the `parseWindowsHeaders` loop: split on the
first `':'` (skip the line if there is none), trim key and value, use
a `status` key (case-insensitive) to update the status code when the
first three value bytes parse as an integer, and add every other
key/value to the header map. -/
def processHeaderLine (line : Str) (hs : Header) (st : Int) : Header × Int :=
  match splitOnceColon line with
  | none => (hs, st)
  | some (p0, p1) =>
    let key := trimSpace p0
    let value := trimSpace p1
    if lowerStr key = str "status" then
      if 3 ≤ value.length then
        match atoi (value.take 3) with
        | some code => (hs, code)
        | none => (hs, st)
      else (hs, st)
    else (headerAdd hs key value, st)

example : processHeaderLine (str "Status: 404 Not Found") [] 200 = ([], 404) := by decide
example : processHeaderLine (str "Status: abc") [] 200 = ([], 200) := by decide
example : processHeaderLine (str "no colon here") [] 200 = ([], 200) := by decide
example : processHeaderLine (str "Content-Type: text/plain") [] 200 =
    ([(str "Content-Type", [str "text/plain"])], 200) := by decide

/-! One-step unfolding lemmas for `readWindowsLine`, to keep rewriting
under control. -/

theorem readWindowsLine_nil_eof (line : Str) :
    readWindowsLine line [] .eof =
      if line = [] then .error .eof else .ok (line, []) := rfl

theorem readWindowsLine_nil_err (line : Str) (e : Nat) :
    readWindowsLine line [] (.err e) = .error (.err e) := rfl

theorem readWindowsLine_nl (line t : Str) (re : ReadEnd) :
    readWindowsLine line (10 :: t) re = .ok (line, t) := rfl

theorem readWindowsLine_other (line : Str) (b : Nat) (t : Str) (re : ReadEnd)
    (hb : b ≠ 10) (hc : b ≠ 13) :
    readWindowsLine line (b :: t) re = readWindowsLine (line ++ [b]) t re := by
  show (if b = 10 then Except.ok (line, t)
     else if b = 13 then
       match t with
       | p1 :: p2 :: tail =>
         if p1 = 13 ∧ p2 = 10 then Except.ok (line, tail)
         else if p1 = 10 then Except.ok (line, p2 :: tail)
         else readWindowsLine (line ++ [b]) t re
       | _ => readWindowsLine (line ++ [b]) t re
     else readWindowsLine (line ++ [b]) t re) = _
  rw [if_neg hb, if_neg hc]

theorem readWindowsLine_cr_zero (line : Str) (re : ReadEnd) :
    readWindowsLine line [13] re = readWindowsLine (line ++ [13]) [] re := rfl

theorem readWindowsLine_cr_one (line : Str) (p1 : Nat) (re : ReadEnd) :
    readWindowsLine line [13, p1] re = readWindowsLine (line ++ [13]) [p1] re := rfl

theorem readWindowsLine_cr_two (line : Str) (p1 p2 : Nat) (t2 : Str) (re : ReadEnd) :
    readWindowsLine line (13 :: p1 :: p2 :: t2) re =
      if p1 = 13 ∧ p2 = 10 then .ok (line, t2)
      else if p1 = 10 then .ok (line, p2 :: t2)
      else readWindowsLine (line ++ [13]) (p1 :: p2 :: t2) re := rfl

/-- A successful `readWindowsLine` never leaves more bytes than it was
given. -/
theorem readWindowsLine_rest_le (re : ReadEnd) :
    ∀ (data line l rest : Str),
      readWindowsLine line data re = .ok (l, rest) → rest.length ≤ data.length := by
  intro data
  induction data with
  | nil =>
    intro line l rest h
    cases re with
    | eof =>
      rw [readWindowsLine_nil_eof] at h
      by_cases hl : line = [] <;> simp [hl] at h
      obtain ⟨-, rfl⟩ := h
      simp
    | err e => rw [readWindowsLine_nil_err] at h; cases h
  | cons b t ih =>
    intro line l rest h
    by_cases hb : b = 10
    · subst hb
      rw [readWindowsLine_nl] at h
      obtain ⟨-, rfl⟩ := Prod.mk.inj (Except.ok.inj h)
      simp
    · by_cases hc : b = 13
      · subst hc
        match t with
        | [] =>
          rw [readWindowsLine_cr_zero] at h
          exact (ih _ _ _ h).trans (by simp)
        | [p1] =>
          rw [readWindowsLine_cr_one] at h
          exact (ih _ _ _ h).trans (by simp)
        | p1 :: p2 :: t2 =>
          rw [readWindowsLine_cr_two] at h
          by_cases h1 : p1 = 13 ∧ p2 = 10
          · rw [if_pos h1] at h
            obtain ⟨-, rfl⟩ := Prod.mk.inj (Except.ok.inj h)
            simp only [List.length_cons]
            omega
          · rw [if_neg h1] at h
            by_cases h2 : p1 = 10
            · rw [if_pos h2] at h
              obtain ⟨-, rfl⟩ := Prod.mk.inj (Except.ok.inj h)
              simp only [List.length_cons]
              omega
            · rw [if_neg h2] at h
              exact (ih _ _ _ h).trans (by simp)
      · rw [readWindowsLine_other line b t re hb hc] at h
        exact (ih _ _ _ h).trans (by simp)

/-- Starting from an empty accumulator (as the header loop does), a
successful `readWindowsLine` strictly consumes input. -/
theorem readWindowsLine_rest_lt (re : ReadEnd) (data l rest : Str)
    (h : readWindowsLine [] data re = .ok (l, rest)) : rest.length < data.length := by
  match data with
  | [] =>
    cases re with
    | eof => rw [readWindowsLine_nil_eof] at h; simp at h
    | err e => rw [readWindowsLine_nil_err] at h; cases h
  | b :: t =>
    by_cases hb : b = 10
    · subst hb
      rw [readWindowsLine_nl] at h
      obtain ⟨-, rfl⟩ := Prod.mk.inj (Except.ok.inj h)
      simp
    · by_cases hc : b = 13
      · subst hc
        match t with
        | [] =>
          rw [readWindowsLine_cr_zero] at h
          exact Nat.lt_succ_of_le (readWindowsLine_rest_le re _ _ _ _ h)
        | [p1] =>
          rw [readWindowsLine_cr_one] at h
          exact Nat.lt_succ_of_le (readWindowsLine_rest_le re _ _ _ _ h)
        | p1 :: p2 :: t2 =>
          rw [readWindowsLine_cr_two] at h
          by_cases h1 : p1 = 13 ∧ p2 = 10
          · rw [if_pos h1] at h
            obtain ⟨-, rfl⟩ := Prod.mk.inj (Except.ok.inj h)
            simp only [List.length_cons]
            omega
          · rw [if_neg h1] at h
            by_cases h2 : p1 = 10
            · rw [if_pos h2] at h
              obtain ⟨-, rfl⟩ := Prod.mk.inj (Except.ok.inj h)
              simp only [List.length_cons]
              omega
            · rw [if_neg h2] at h
              exact Nat.lt_succ_of_le (readWindowsLine_rest_le re _ _ _ _ h)
      · rw [readWindowsLine_other [] b t re hb hc] at h
        exact Nat.lt_succ_of_le (readWindowsLine_rest_le re _ _ _ _ h)

/-- The header-reading loop of `parseWindowsHeaders`: read lines until
an empty line, feeding each through `processHeaderLine`.  A read error
aborts the parse (`return nil, 0, nil, err` in Go, with the error
message wrapped; the model propagates the underlying error value). -/
def parseHeadersLoop (data : Str) (re : ReadEnd) (hs : Header) (st : Int) :
    Except ReadEnd (Header × Int × Str) :=
  match h : readWindowsLine [] data re with
  | .error e => .error e
  | .ok (line, rest) =>
    if line = [] then .ok (hs, st, rest)
    else
      let p := processHeaderLine line hs st
      parseHeadersLoop rest re p.1 p.2
termination_by data.length
decreasing_by exact readWindowsLine_rest_lt re data line rest h

/-- `parseWindowsHeaders`: headers start empty, the status code starts
at 200; the unconsumed remainder of the stream is the body. -/
def parseWindowsHeaders (data : Str) (re : ReadEnd) :
    Except ReadEnd (Header × Int × Str) :=
  parseHeadersLoop data re [] 200

/-- At end of stream with no `'\n'` among the remaining bytes, every
remaining byte is accumulated and the pending line is returned. -/
theorem readWindowsLine_eof_pending :
    ∀ (data acc : Str), 10 ∉ data → acc ++ data ≠ [] →
      readWindowsLine acc data .eof = .ok (acc ++ data, []) := by
  intro data
  induction data with
  | nil =>
    intro acc _ hne
    rw [readWindowsLine_nil_eof, if_neg (by simpa using hne)]
    simp
  | cons b t ih =>
    intro acc hnl hne
    have hb : b ≠ 10 := fun h => hnl (h ▸ List.mem_cons_self b t)
    have hnl' : 10 ∉ t := fun h => hnl (List.mem_cons_of_mem b h)
    by_cases hc : b = 13
    · subst hc
      match t, hnl' with
      | [], _ =>
        rw [readWindowsLine_cr_zero, ih (acc ++ [13]) (by simp) (by simp)]
        simp
      | [p1], hnl' =>
        rw [readWindowsLine_cr_one, ih (acc ++ [13]) hnl' (by simp)]
        simp
      | p1 :: p2 :: t2, hnl' =>
        have hp2 : p2 ≠ 10 := fun h =>
          hnl' (h ▸ List.mem_cons_of_mem p1 (List.mem_cons_self p2 t2))
        have hp1 : p1 ≠ 10 := fun h => hnl' (h ▸ List.mem_cons_self p1 (p2 :: t2))
        rw [readWindowsLine_cr_two, if_neg (fun h => hp2 h.2), if_neg hp1,
          ih (acc ++ [13]) hnl' (by simp)]
        simp
    · rw [readWindowsLine_other acc b t .eof hb hc, ih (acc ++ [b]) hnl' (by simp)]
      simp

/-- A read error other than end-of-stream is propagated, dropping the
pending line (here for streams whose remaining bytes hold no `'\n'`,
so that the error is actually reached). -/
theorem readWindowsLine_err_propagates :
    ∀ (data acc : Str) (e : Nat), 10 ∉ data →
      readWindowsLine acc data (.err e) = .error (.err e) := by
  intro data
  induction data with
  | nil => intro acc e _; rw [readWindowsLine_nil_err]
  | cons b t ih =>
    intro acc e hnl
    have hb : b ≠ 10 := fun h => hnl (h ▸ List.mem_cons_self b t)
    have hnl' : 10 ∉ t := fun h => hnl (List.mem_cons_of_mem b h)
    by_cases hc : b = 13
    · subst hc
      match t, hnl' with
      | [], _ => rw [readWindowsLine_cr_zero, ih (acc ++ [13]) e (by simp)]
      | [p1], hnl' => rw [readWindowsLine_cr_one, ih (acc ++ [13]) e hnl']
      | p1 :: p2 :: t2, hnl' =>
        have hp2 : p2 ≠ 10 := fun h =>
          hnl' (h ▸ List.mem_cons_of_mem p1 (List.mem_cons_self p2 t2))
        have hp1 : p1 ≠ 10 := fun h => hnl' (h ▸ List.mem_cons_self p1 (p2 :: t2))
        rw [readWindowsLine_cr_two, if_neg (fun h => hp2 h.2), if_neg hp1,
          ih (acc ++ [13]) e hnl']
    · rw [readWindowsLine_other acc b t (.err e) hb hc, ih (acc ++ [b]) e hnl']

/-- Loop-step lemma: a read error aborts the parse. -/
theorem parseHeadersLoop_err {data : Str} {re : ReadEnd} {e : ReadEnd} (hs : Header) (st : Int)
    (h : readWindowsLine [] data re = .error e) :
    parseHeadersLoop data re hs st = .error e := by
  rw [parseHeadersLoop]
  split
  · rename_i e' heq
    rw [h] at heq
    cases heq
    rfl
  · rename_i line rest heq
    rw [h] at heq
    cases heq

/-- Loop-step lemma: an empty line ends the headers; the rest of the
stream is the body. -/
theorem parseHeadersLoop_blank {data rest : Str} {re : ReadEnd} (hs : Header) (st : Int)
    (h : readWindowsLine [] data re = .ok ([], rest)) :
    parseHeadersLoop data re hs st = .ok (hs, st, rest) := by
  rw [parseHeadersLoop]
  split
  · rename_i e' heq
    rw [h] at heq
    cases heq
  · rename_i line rest' heq
    rw [h] at heq
    cases heq
    simp

/-- Loop-step lemma: a nonempty line is processed and the loop
continues on the remaining stream. -/
theorem parseHeadersLoop_line {data line rest : Str} {re : ReadEnd} (hs : Header) (st : Int)
    (h : readWindowsLine [] data re = .ok (line, rest)) (hne : line ≠ []) :
    parseHeadersLoop data re hs st =
      parseHeadersLoop rest re (processHeaderLine line hs st).1
        (processHeaderLine line hs st).2 := by
  rw [parseHeadersLoop]
  split
  · rename_i e' heq
    rw [h] at heq
    cases heq
  · rename_i line' rest' heq
    rw [h] at heq
    cases heq
    simp [hne]

example : parseWindowsHeaders (str "Content-Type: text/plain\r\n\r\nhello") .eof =
    .ok ([(str "Content-Type", [str "text/plain"])], 200, str "hello") := by
  have h1 : readWindowsLine [] (str "Content-Type: text/plain\r\n\r\nhello") .eof =
      .ok (str "Content-Type: text/plain", str "\r\nhello") := by decide
  have h2 : readWindowsLine [] (str "\r\nhello") .eof = .ok ([], str "hello") := by decide
  rw [parseWindowsHeaders, parseHeadersLoop_line [] 200 h1 (by decide),
    parseHeadersLoop_blank _ _ h2]
  decide

example : parseWindowsHeaders (str "Status: 302 Found\r\nLocation: /x\r\r\n\r\r\nbye") .eof =
    .ok ([(str "Location", [str "/x"])], 302, str "bye") := by
  have h1 : readWindowsLine [] (str "Status: 302 Found\r\nLocation: /x\r\r\n\r\r\nbye") .eof =
      .ok (str "Status: 302 Found", str "Location: /x\r\r\n\r\r\nbye") := by decide
  have h2 : readWindowsLine [] (str "Location: /x\r\r\n\r\r\nbye") .eof =
      .ok (str "Location: /x", str "\r\r\nbye") := by decide
  have h3 : readWindowsLine [] (str "\r\r\nbye") .eof = .ok ([], str "bye") := by decide
  rw [parseWindowsHeaders, parseHeadersLoop_line [] 200 h1 (by decide),
    parseHeadersLoop_line _ _ h2 (by decide),
    parseHeadersLoop_blank _ _ h3]
  decide

/-! ## `buildEnv` / `getPort` (windows_cgi.go) and the `cgiHandler.Env`
entries appended by `ServeHTTP` (cgi.go) -/

/-- The fields of `*http.Request` read by `buildEnv` and `getPort`. -/
structure WinRequest where
  method : Str
  urlPath : Str
  rawQuery : Str
  host : Str
  proto : Str
  remoteAddr : Str
  contentLength : Int
  header : Header
  tls : Bool

/-- Decimal digits of `n`, least significant first (first argument is
fuel, `n` itself always suffices). -/
def natToDecAux : Nat → Nat → Str
  | 0, _ => []
  | _ + 1, 0 => []
  | fuel + 1, n + 1 => ((n + 1) % 10 + 48) :: natToDecAux fuel ((n + 1) / 10)

/-- Decimal representation of a natural number (`strconv.FormatInt`
for non-negative input). -/
def natToDec (n : Nat) : Str := if n = 0 then [48] else (natToDecAux n n).reverse

/-- `strconv.FormatInt(i, 10)`. -/
def intToDec (i : Int) : Str :=
  if i < 0 then 45 :: natToDec i.natAbs else natToDec i.toNat

example : intToDec 10485760 = str "10485760" := by decide
example : intToDec (-1) = str "-1" := by decide

/-- `strings.Split` on a single separator byte. -/
def splitByte (sep : Nat) : Str → List Str
  | [] => [[]]
  | b :: t =>
    match splitByte sep t with
    | h :: r => if b = sep then [] :: h :: r else (b :: h) :: r
    | [] => [[b]]

/-- `getPort` from windows_cgi.go: the part after the first `':'` of
`req.Host` when present, else 443 for TLS requests and 80 otherwise. -/
def getPort (r : WinRequest) : Str :=
  match splitByte 58 r.host with
  | _ :: p1 :: _ => p1
  | _ => if r.tls then str "443" else str "80"

example : getPort ⟨[], [], [], str "example.com:9080", [], [], 0, [], false⟩ = str "9080" := by
  decide
example : getPort ⟨[], [], [], str "example.com", [], [], 0, [], true⟩ = str "443" := by decide

/-- A `KEY=VALUE` environment entry. -/
def envEntry (k v : Str) : Str := k ++ 61 :: v

/-- The key of an environment entry as the subprocess resolves it:
the bytes before the first `'='`. -/
def entryKey (e : Str) : Str := e.takeWhile (fun b => b != 61)

/-- `strings.ToUpper(strings.ReplaceAll(key, "-", "_"))`. -/
def envHeaderName (k : Str) : Str :=
  upperStr (k.map (fun b => if b = 45 then 95 else b))

/-- The `HTTP_<NAME>` entries of `buildEnv`: one per request header
with at least one value, carrying the first value.  (Go iterates the
header map with `range`; the claims proved about this list do not
depend on the iteration order, so the stored entry order is used.) -/
def headerEnv (h : Header) : List Str :=
  h.filterMap fun kv =>
    match kv.2 with
    | v :: _ => some (envEntry (str "HTTP_" ++ envHeaderName kv.1) v)
    | [] => none

/-- `buildEnv` from windows_cgi.go: the fixed CGI variables in source
order, then the `HTTP_` header variables, then the handler's `Env`
entries (`env = append(env, h.Env...)`), then the inherited variables
(`os.Getenv` results, modelled as resolved key/value pairs; empty
values are skipped). -/
def buildEnv (r : WinRequest) (handlerEnv : List Str)
    (inherited : List (Str × Str)) : List Str :=
  [envEntry (str "REQUEST_METHOD") r.method,
   envEntry (str "SCRIPT_NAME") r.urlPath,
   envEntry (str "PATH_INFO") r.urlPath,
   envEntry (str "QUERY_STRING") r.rawQuery,
   envEntry (str "CONTENT_TYPE") (headerGetFirst r.header (str "Content-Type")),
   envEntry (str "CONTENT_LENGTH") (intToDec r.contentLength),
   envEntry (str "SERVER_NAME") r.host,
   envEntry (str "SERVER_PORT") (getPort r),
   envEntry (str "SERVER_PROTOCOL") r.proto,
   envEntry (str "SERVER_SOFTWARE") (str "caddy-cgi"),
   envEntry (str "GATEWAY_INTERFACE") (str "CGI/1.1"),
   envEntry (str "REMOTE_ADDR") r.remoteAddr,
   envEntry (str "REMOTE_HOST") r.remoteAddr]
  ++ headerEnv r.header
  ++ handlerEnv
  ++ inherited.filterMap fun kv =>
       if kv.2 ≠ [] then some (envEntry kv.1 kv.2) else none

/-- The five `envAdd` calls of `CGI.ServeHTTP` (cgi.go lines 81–88):
the `cgiHandler.Env` entries handed to the handler, which `buildEnv`
appends after its fixed variables. -/
def serveHTTPEnv (scriptPath exePath scriptNm scriptExec username : Str) : List Str :=
  [envEntry (str "PATH_INFO") scriptPath,
   envEntry (str "SCRIPT_FILENAME") exePath,
   envEntry (str "SCRIPT_NAME") scriptNm,
   envEntry (str "SCRIPT_EXEC") scriptExec,
   envEntry (str "REMOTE_USER") username]

/-! ## The chunked-body reframing of `CGI.ServeHTTP` (cgi.go 92–150) -/

/-- The request state the reframing step reads and writes. -/
structure ChunkReq where
  transferEncoding : List Str
  header : Header
  contentLength : Int
deriving DecidableEq, Repr

/-- Where the replacement body lives after reframing. -/
inductive BodySource where
  | memory (bytes : Str)
  | tempfile (bytes : Str)
deriving DecidableEq, Repr

/-- The guard `len(r.TransferEncoding) > 0 && r.TransferEncoding[0] ==
"chunked"`. -/
def isChunkedTE (te : List Str) : Bool :=
  match te with
  | t0 :: _ => t0 == str "chunked"
  | [] => false

/-- The request-state update at the end of the reframing block:
`r.TransferEncoding = nil`, `r.Header.Del("Transfer-Encoding")`,
`r.Header.Add("Content-Length", sizeStr)`, `r.ContentLength = size`. -/
def reframeUpdate (r : ChunkReq) (size : Nat) : ChunkReq :=
  { r with
    transferEncoding := [],
    header := headerAdd (headerDel r.header (str "Transfer-Encoding"))
      (str "Content-Length") (natToDec size),
    contentLength := (size : Int) }

/-- The reframing body (cgi.go 97–149) on a body of known contents:
`io.CopyN(buf, r.Body, L)` moves `min |body| L` bytes into the buffer;
if that filled the buffer (`size == c.BufferLimit`) the buffered bytes
plus the remainder of the body are written to a temporary file which
becomes the new body, otherwise the buffer itself does. -/
def reframeChunked (body : Str) (bufferLimit : Nat) (r : ChunkReq) :
    ChunkReq × BodySource :=
  let size := min body.length bufferLimit
  if size = bufferLimit then
    let fileBytes := body.take bufferLimit ++ body.drop bufferLimit
    let total := size + (body.length - bufferLimit)
    (reframeUpdate r total, .tempfile fileBytes)
  else
    (reframeUpdate r size, .memory (body.take bufferLimit))

/-- The chunked-transfer work-around of `CGI.ServeHTTP`: requests whose
transfer encoding starts with "chunked" are reframed, all others pass
through untouched (`none` = body left as it was). -/
def serveReframe (body : Str) (bufferLimit : Nat) (r : ChunkReq) :
    ChunkReq × Option BodySource :=
  if isChunkedTE r.transferEncoding then
    let p := reframeChunked body bufferLimit r
    (p.1, some p.2)
  else (r, none)

/-! ## `instantWriter` (cgi.go 179–187) -/

/-- Observable calls `instantWriter.Write` makes on the wrapped
`http.ResponseWriter`. -/
inductive WriterEvent where
  | write (b : Str)
  | flush
deriving DecidableEq, Repr

/-- `instantWriter.Write`: forward the bytes to the underlying writer,
then call `Flush`, and return the underlying writer's `(n, err)`.  The
underlying writer is modelled by its result function; the second
component lists the calls made on it, in order. -/
def instantWriterWrite (underlying : Str → Nat × Option Nat) (b : Str) :
    (Nat × Option Nat) × List WriterEvent :=
  (underlying b, [.write b, .flush])

/-! ## Lemmas about the header map -/

theorem headerValues_addRaw (h : Header) :
    ∀ (k v k' : Str), headerValues (headerAddRaw h k v) k' =
      if k = k' then headerValues h k' ++ [v] else headerValues h k' := by
  induction h with
  | nil =>
    intro k v k'
    by_cases hk : k = k' <;> simp [headerAddRaw, headerValues, hk]
  | cons kv t ih =>
    intro k v k'
    obtain ⟨k0, vs⟩ := kv
    by_cases h0 : k0 = k
    · subst h0
      by_cases hk : k0 = k'
      · subst hk
        simp [headerAddRaw, headerValues]
      · simp [headerAddRaw, headerValues, hk]
    · by_cases hk : k0 = k'
      · subst hk
        have : ¬ k = k0 := fun h' => h0 h'.symm
        simp [headerAddRaw, headerValues, h0, this]
      · simp [headerAddRaw, headerValues, h0, hk, ih]

theorem headerValues_delRaw_self (h : Header) (k : Str) :
    headerValues (headerDelRaw h k) k = [] := by
  induction h with
  | nil => rfl
  | cons kv t ih =>
    obtain ⟨k0, vs⟩ := kv
    by_cases h0 : k0 = k
    · simpa [headerDelRaw, h0] using ih
    · simpa [headerDelRaw, headerValues, h0] using ih

theorem headerValues_delRaw_other (h : Header) (k k' : Str) (hne : k' ≠ k) :
    headerValues (headerDelRaw h k) k' = headerValues h k' := by
  induction h with
  | nil => rfl
  | cons kv t ih =>
    obtain ⟨k0, vs⟩ := kv
    by_cases h0 : k0 = k
    · simpa [headerDelRaw, headerValues, h0, Ne.symm hne] using ih
    · by_cases h1 : k0 = k'
      · simp [headerDelRaw, headerValues, h0, h1, hne]
      · simpa [headerDelRaw, headerValues, h0, h1] using ih

/-! ## Lemmas about key canonicalisation -/

theorem validHeaderFieldByte_iff (b : Nat) :
    validHeaderFieldByte b = true ↔
      ((48 ≤ b ∧ b ≤ 57) ∨ (65 ≤ b ∧ b ≤ 90) ∨ (97 ≤ b ∧ b ≤ 122) ∨
       b = 33 ∨ b = 35 ∨ b = 36 ∨ b = 37 ∨ b = 38 ∨ b = 39 ∨ b = 42 ∨
       b = 43 ∨ b = 45 ∨ b = 46 ∨ b = 94 ∨ b = 95 ∨ b = 96 ∨ b = 124 ∨
       b = 126) := by
  simp [validHeaderFieldByte, Bool.or_eq_true, Bool.and_eq_true,
    decide_eq_true_iff, beq_iff_eq, or_assoc]

theorem lowerByte_upperByte (c : Nat) : lowerByte (upperByte c) = lowerByte c := by
  simp only [lowerByte, upperByte]
  split_ifs <;> omega

theorem lowerByte_lowerByte (c : Nat) : lowerByte (lowerByte c) = lowerByte c := by
  simp only [lowerByte]
  split_ifs <;> omega

theorem upperByte_upperByte (c : Nat) : upperByte (upperByte c) = upperByte c := by
  simp only [upperByte]
  split_ifs <;> omega

theorem canonLoop_cons (up : Bool) (c : Nat) (t : Str) :
    canonLoop up (c :: t) =
      (if up then upperByte c else lowerByte c) ::
        canonLoop (decide ((if up then upperByte c else lowerByte c) = 45)) t := rfl

theorem lowerStr_cons (c : Nat) (t : Str) :
    lowerStr (c :: t) = lowerByte c :: lowerStr t := rfl

/-- Case-mangling never changes the lower-cased reading of a key. -/
theorem lowerStr_canonLoop : ∀ (s : Str) (up : Bool),
    lowerStr (canonLoop up s) = lowerStr s := by
  intro s
  induction s with
  | nil => intro up; rfl
  | cons c t ih =>
    intro up
    rw [canonLoop_cons, lowerStr_cons, lowerStr_cons, ih]
    cases up <;> simp [lowerByte_upperByte, lowerByte_lowerByte]

theorem lowerStr_canonical (k : Str) :
    lowerStr (canonicalMIMEHeaderKey k) = lowerStr k := by
  by_cases hvalid : k.all validHeaderFieldByte = true
  · unfold canonicalMIMEHeaderKey
    rw [if_pos hvalid]
    exact lowerStr_canonLoop k true
  · unfold canonicalMIMEHeaderKey
    rw [if_neg hvalid]

theorem validHeaderFieldByte_upperByte (c : Nat)
    (h : validHeaderFieldByte c = true) : validHeaderFieldByte (upperByte c) = true := by
  rw [validHeaderFieldByte_iff] at *
  unfold upperByte
  split_ifs <;> omega

theorem validHeaderFieldByte_lowerByte (c : Nat)
    (h : validHeaderFieldByte c = true) : validHeaderFieldByte (lowerByte c) = true := by
  rw [validHeaderFieldByte_iff] at *
  unfold lowerByte
  split_ifs <;> omega

theorem canonLoop_valid : ∀ (s : Str) (up : Bool),
    s.all validHeaderFieldByte = true → (canonLoop up s).all validHeaderFieldByte = true := by
  intro s
  induction s with
  | nil => intro up _; rfl
  | cons c t ih =>
    intro up h
    simp only [List.all_cons, Bool.and_eq_true] at h
    rw [canonLoop_cons]
    simp only [List.all_cons, Bool.and_eq_true]
    refine ⟨?_, ih _ h.2⟩
    cases up
    · simpa using validHeaderFieldByte_lowerByte c h.1
    · simpa using validHeaderFieldByte_upperByte c h.1

theorem canonLoop_idem : ∀ (s : Str) (up : Bool),
    canonLoop up (canonLoop up s) = canonLoop up s := by
  intro s
  induction s with
  | nil => intro up; rfl
  | cons c t ih =>
    intro up
    rw [canonLoop_cons, canonLoop_cons]
    have hc : (if up then upperByte (if up then upperByte c else lowerByte c)
        else lowerByte (if up then upperByte c else lowerByte c)) =
        (if up then upperByte c else lowerByte c) := by
      cases up <;> simp [upperByte_upperByte, lowerByte_lowerByte]
    rw [hc, ih]

theorem canonical_idem (k : Str) :
    canonicalMIMEHeaderKey (canonicalMIMEHeaderKey k) = canonicalMIMEHeaderKey k := by
  by_cases hvalid : k.all validHeaderFieldByte = true
  · have h1 : canonicalMIMEHeaderKey k = canonLoop true k := by
      unfold canonicalMIMEHeaderKey
      rw [if_pos hvalid]
    rw [h1]
    unfold canonicalMIMEHeaderKey
    rw [if_pos (canonLoop_valid k true hvalid)]
    exact canonLoop_idem k true
  · have h1 : canonicalMIMEHeaderKey k = k := by
      unfold canonicalMIMEHeaderKey
      rw [if_neg hvalid]
    rw [h1, h1]

/-! ## Invariants of header maps built by `headerAdd` -/

/-- Maps built through `headerAdd` have pairwise-distinct, canonical
keys (as Go maps keyed by `CanonicalMIMEHeaderKey` do). -/
def HeaderWF (h : Header) : Prop :=
  (h.map Prod.fst).Nodup ∧ ∀ key ∈ h.map Prod.fst, canonicalMIMEHeaderKey key = key

theorem headerAddRaw_keys (h : Header) (k v : Str) :
    (headerAddRaw h k v).map Prod.fst =
      if k ∈ h.map Prod.fst then h.map Prod.fst else h.map Prod.fst ++ [k] := by
  induction h with
  | nil => simp [headerAddRaw]
  | cons kv t ih =>
    obtain ⟨k0, vs⟩ := kv
    by_cases h0 : k0 = k
    · subst h0
      simp [headerAddRaw]
    · by_cases hm : k ∈ t.map Prod.fst
      · simp [headerAddRaw, h0, hm, Ne.symm h0, ih]
      · simp [headerAddRaw, h0, hm, Ne.symm h0, ih]

theorem headerAdd_WF (h : Header) (k v : Str) (hwf : HeaderWF h) :
    HeaderWF (headerAdd h k v) := by
  obtain ⟨hnd, hcan⟩ := hwf
  unfold headerAdd
  constructor
  · rw [headerAddRaw_keys]
    by_cases hm : canonicalMIMEHeaderKey k ∈ h.map Prod.fst
    · simpa [hm] using hnd
    · rw [if_neg hm, List.nodup_append]
      exact ⟨hnd, List.nodup_singleton _,
        fun x hx hx' => hm (by rwa [List.mem_singleton.mp hx'] at hx)⟩
  · rw [headerAddRaw_keys]
    by_cases hm : canonicalMIMEHeaderKey k ∈ h.map Prod.fst
    · simpa [hm] using hcan
    · intro key hkey
      rw [if_neg hm] at hkey
      rcases List.mem_append.mp hkey with hkey | hkey
      · exact hcan key hkey
      · rw [List.mem_singleton.mp hkey]
        exact canonical_idem k

/-- `processHeaderLine` preserves well-formedness of the header map. -/
theorem processHeaderLine_WF (line : Str) (hs : Header) (st : Int)
    (hwf : HeaderWF hs) : HeaderWF (processHeaderLine line hs st).1 := by
  unfold processHeaderLine
  cases hsplit : splitOnceColon line with
  | none => exact hwf
  | some p =>
    obtain ⟨p0, p1⟩ := p
    by_cases hstat : lowerStr (trimSpace p0) = str "status"
    · by_cases hlen : 3 ≤ (trimSpace p1).length
      · simp only [hstat, if_true, hlen]
        cases hato : atoi ((trimSpace p1).take 3) <;> simp [hato, hwf]
      · simp [hstat, hlen, hwf]
    · simpa [hstat] using headerAdd_WF hs (trimSpace p0) (trimSpace p1) hwf

/-- A line whose key is the `status` pseudo-header never reaches the
map, so a map holding no `"Status"` entry still holds none after
`processHeaderLine`. -/
theorem processHeaderLine_status_values (line : Str) (hs : Header) (st : Int)
    (h : headerValues hs (str "Status") = []) :
    headerValues (processHeaderLine line hs st).1 (str "Status") = [] := by
  unfold processHeaderLine
  cases hsplit : splitOnceColon line with
  | none => exact h
  | some p =>
    obtain ⟨p0, p1⟩ := p
    by_cases hstat : lowerStr (trimSpace p0) = str "status"
    · by_cases hlen : 3 ≤ (trimSpace p1).length
      · simp only [hstat, if_true, hlen]
        cases hato : atoi ((trimSpace p1).take 3) <;> simp [hato, h]
      · simp [hstat, hlen, h]
    · have hne : canonicalMIMEHeaderKey (trimSpace p0) ≠ str "Status" := by
        intro contra
        apply hstat
        have h1 := lowerStr_canonical (trimSpace p0)
        rw [contra] at h1
        have h2 : lowerStr (str "Status") = str "status" := by decide
        rw [h2] at h1
        exact h1.symm
      simp only [hstat, if_false]
      rw [headerAdd, headerValues_addRaw, if_neg hne]
      exact h

/-- Invariant preservation along the header-reading loop. -/
theorem parseHeadersLoop_inv (P : Header → Int → Prop)
    (hP : ∀ line hs st, line ≠ [] → P hs st →
      P (processHeaderLine line hs st).1 (processHeaderLine line hs st).2) :
    ∀ (n : Nat) (data : Str) (re : ReadEnd) (hs : Header) (st : Int)
      (hs' : Header) (st' : Int) (rest : Str), data.length ≤ n → P hs st →
      parseHeadersLoop data re hs st = .ok (hs', st', rest) → P hs' st' := by
  intro n
  induction n with
  | zero =>
    intro data re hs st hs' st' rest hlen hp hloop
    have hdata : data = [] := List.length_eq_zero.mp (Nat.le_zero.mp hlen)
    subst hdata
    cases re with
    | eof =>
      have h0 : readWindowsLine [] ([] : Str) .eof = .error .eof := by
        rw [readWindowsLine_nil_eof]
        simp
      rw [parseHeadersLoop_err hs st h0] at hloop
      cases hloop
    | err e =>
      rw [parseHeadersLoop_err hs st (readWindowsLine_nil_err [] e)] at hloop
      cases hloop
  | succ n ih =>
    intro data re hs st hs' st' rest hlen hp hloop
    cases hread : readWindowsLine [] data re with
    | error e =>
      rw [parseHeadersLoop_err hs st hread] at hloop
      cases hloop
    | ok p =>
      obtain ⟨line, rest₁⟩ := p
      by_cases hline : line = []
      · subst hline
        rw [parseHeadersLoop_blank hs st hread] at hloop
        obtain ⟨h1, h2, -⟩ := Prod.mk.inj_iff.mp (Except.ok.inj hloop) |>.imp id Prod.mk.inj
        subst h1
        subst h2
        exact hp
      · rw [parseHeadersLoop_line hs st hread hline] at hloop
        have hlt := readWindowsLine_rest_lt re data line rest₁ hread
        exact ih rest₁ re _ _ hs' st' rest (by omega) (hP line hs st hline hp) hloop

/-- Invariant preservation for a whole parse. -/
theorem parseWindowsHeaders_inv (P : Header → Int → Prop)
    (hP : ∀ line hs st, line ≠ [] → P hs st →
      P (processHeaderLine line hs st).1 (processHeaderLine line hs st).2)
    (data : Str) (re : ReadEnd) (hs' : Header) (st' : Int) (rest : Str)
    (hbase : P [] 200)
    (h : parseWindowsHeaders data re = .ok (hs', st', rest)) : P hs' st' :=
  parseHeadersLoop_inv P hP data.length data re [] 200 hs' st' rest le_rfl hbase h

/-- The header map of a successful parse is well-formed. -/
theorem parseWindowsHeaders_WF (data : Str) (re : ReadEnd) (hs' : Header)
    (st' : Int) (rest : Str)
    (h : parseWindowsHeaders data re = .ok (hs', st', rest)) : HeaderWF hs' := by
  refine parseWindowsHeaders_inv (fun hs _ => HeaderWF hs) ?_ data re hs' st' rest ?_ h
  · intro line hs st _ hp
    exact processHeaderLine_WF line hs st hp
  · exact ⟨List.nodup_nil, by simp⟩

/-! ## Value preservation of the header application, for any map
iteration order -/

theorem gatherValues_cons (kv : Str × List Str) (t : Header) (k : Str) :
    gatherValues (kv :: t) k =
      if canonicalMIMEHeaderKey kv.1 = k then kv.2 ++ gatherValues t k
      else gatherValues t k := by
  by_cases h0 : canonicalMIMEHeaderKey kv.1 = k
  · simp [gatherValues, List.filter_cons, h0]
  · simp [gatherValues, List.filter_cons, h0]

theorem headerValues_applyHeader :
    ∀ (vs : List Str) (rw : Header) (k k' : Str),
      headerValues (applyHeader rw k vs) k' =
        headerValues rw k' ++ (if canonicalMIMEHeaderKey k = k' then vs else []) := by
  intro vs
  induction vs with
  | nil => intro rw k k'; simp [applyHeader]
  | cons v t ih =>
    intro rw k k'
    have hfold : applyHeader rw k (v :: t) = applyHeader (headerAdd rw k v) k t := rfl
    rw [hfold, ih, headerAdd, headerValues_addRaw]
    by_cases hk : canonicalMIMEHeaderKey k = k' <;> simp [hk]

theorem headerValues_applyHeaders :
    ∀ (ord : List (Str × List Str)) (rw : Header) (k : Str),
      headerValues (applyHeaders rw ord) k = headerValues rw k ++ gatherValues ord k := by
  intro ord
  induction ord with
  | nil => intro rw k; simp [applyHeaders, gatherValues]
  | cons kv t ih =>
    intro rw k
    have hfold : applyHeaders rw (kv :: t) = applyHeaders (applyHeader rw kv.1 kv.2) t := rfl
    rw [hfold, ih, headerValues_applyHeader, gatherValues_cons]
    by_cases h0 : canonicalMIMEHeaderKey kv.1 = k <;> simp [h0]

theorem headerFilter_nil (t : Header) (k : Str)
    (hcan : ∀ key ∈ t.map Prod.fst, canonicalMIMEHeaderKey key = key)
    (hk : k ∉ t.map Prod.fst) :
    t.filter (fun kv => canonicalMIMEHeaderKey kv.1 == k) = [] := by
  induction t with
  | nil => rfl
  | cons kv t ih =>
    have h1 : canonicalMIMEHeaderKey kv.1 = kv.1 := hcan _ (by simp)
    have h2 : kv.1 ≠ k := fun h => hk (by simp [h])
    rw [List.filter_cons, if_neg (by simp [h1, h2])]
    exact ih (fun key hkey => hcan key (by simp [hkey])) (fun h => hk (by simp [h]))

theorem gatherValues_nil_of_not_mem (t : Header) (k : Str)
    (hcan : ∀ key ∈ t.map Prod.fst, canonicalMIMEHeaderKey key = key)
    (hk : k ∉ t.map Prod.fst) : gatherValues t k = [] := by
  unfold gatherValues
  rw [headerFilter_nil t k hcan hk]
  rfl

theorem gatherValues_eq_headerValues (h : Header) (k : Str) (hwf : HeaderWF h) :
    gatherValues h k = headerValues h k := by
  induction h with
  | nil => rfl
  | cons kv t ih =>
    obtain ⟨k0, vs⟩ := kv
    obtain ⟨hnd, hcan⟩ := hwf
    rw [List.map_cons, List.nodup_cons] at hnd
    obtain ⟨hnotmem, hnd'⟩ := hnd
    have h1 : canonicalMIMEHeaderKey k0 = k0 := hcan _ (by simp)
    have hcan' : ∀ key ∈ t.map Prod.fst, canonicalMIMEHeaderKey key = key :=
      fun key hkey => hcan key (by simp [hkey])
    by_cases h0 : k0 = k
    · rw [gatherValues_cons, if_pos (by rw [h1]; exact h0)]
      rw [gatherValues_nil_of_not_mem t k hcan' (h0 ▸ hnotmem)]
      simp [headerValues, h0]
    · rw [gatherValues_cons, if_neg (by rw [h1]; exact h0)]
      rw [ih ⟨hnd', hcan'⟩]
      simp [headerValues, h0]

theorem perm_eq_of_length_le_one {α : Type} {l₁ l₂ : List α}
    (hp : l₁.Perm l₂) (hl : l₂.length ≤ 1) : l₁ = l₂ := by
  match l₂, hl with
  | [], _ => exact hp.eq_nil
  | [a], _ => exact List.perm_singleton.mp hp
  | a :: b :: t, hl => simp at hl

theorem headerFilter_length_le_one (h : Header) (k : Str) (hwf : HeaderWF h) :
    (h.filter (fun kv => canonicalMIMEHeaderKey kv.1 == k)).length ≤ 1 := by
  induction h with
  | nil => simp
  | cons kv t ih =>
    obtain ⟨hnd, hcan⟩ := hwf
    rw [List.map_cons, List.nodup_cons] at hnd
    obtain ⟨hnotmem, hnd'⟩ := hnd
    have h1 : canonicalMIMEHeaderKey kv.1 = kv.1 := hcan _ (by simp)
    have hcan' : ∀ key ∈ t.map Prod.fst, canonicalMIMEHeaderKey key = key :=
      fun key hkey => hcan key (by simp [hkey])
    by_cases h0 : kv.1 = k
    · rw [List.filter_cons, if_pos (by simp only [beq_iff_eq]; rw [h1]; exact h0)]
      rw [headerFilter_nil t k hcan' (h0 ▸ hnotmem)]
      simp
    · rw [List.filter_cons, if_neg (by simp only [beq_iff_eq]; rw [h1]; exact h0)]
      exact ih ⟨hnd', hcan'⟩

theorem gatherValues_perm (hs : Header) (ord : List (Str × List Str)) (k : Str)
    (hwf : HeaderWF hs) (hperm : validRangeOrder hs ord) :
    gatherValues ord k = gatherValues hs k := by
  unfold gatherValues
  rw [perm_eq_of_length_le_one (hperm.filter _) (headerFilter_length_le_one hs k hwf)]

/-- Applying a well-formed header map to an empty response header in
any legal `range` order reproduces exactly the per-key value lists. -/
theorem applyHeaders_values (hs : Header) (ord : List (Str × List Str)) (k : Str)
    (hwf : HeaderWF hs) (hperm : validRangeOrder hs ord) :
    headerValues (applyHeaders [] ord) k = headerValues hs k := by
  rw [headerValues_applyHeaders]
  have hnil : headerValues [] k = [] := rfl
  rw [hnil, gatherValues_perm hs ord k hwf hperm, gatherValues_eq_headerValues hs k hwf]
  rfl

/-! ## Line and split helpers -/

/-- A terminator-free, CR-free chunk followed by `'\n'` reads as one
line. -/
theorem readWindowsLine_content :
    ∀ (l acc rest : Str) (re : ReadEnd), (10 : Nat) ∉ l → (13 : Nat) ∉ l →
      readWindowsLine acc (l ++ 10 :: rest) re = .ok (acc ++ l, rest) := by
  intro l
  induction l with
  | nil =>
    intro acc rest re _ _
    rw [List.nil_append, readWindowsLine_nl, List.append_nil]
  | cons c t ih =>
    intro acc rest re hnl hcr
    have hc10 : c ≠ 10 := fun h => hnl (h ▸ List.mem_cons_self c t)
    have hc13 : c ≠ 13 := fun h => hcr (h ▸ List.mem_cons_self c t)
    rw [List.cons_append, readWindowsLine_other acc c (t ++ 10 :: rest) re hc10 hc13,
      ih (acc ++ [c]) rest re (fun h => hnl (List.mem_cons_of_mem c h))
        (fun h => hcr (List.mem_cons_of_mem c h))]
    simp

theorem splitOnceColon_none : ∀ (line : Str), (58 : Nat) ∉ line →
    splitOnceColon line = none := by
  intro line
  induction line with
  | nil => intro _; rfl
  | cons b t ih =>
    intro h
    have hb : b ≠ 58 := fun hb => h (hb ▸ List.mem_cons_self b t)
    rw [splitOnceColon, if_neg hb, ih (fun hm => h (List.mem_cons_of_mem b hm))]

theorem splitOnceColon_append : ∀ (k v : Str), (58 : Nat) ∉ k →
    splitOnceColon (k ++ 58 :: v) = some (k, v) := by
  intro k
  induction k with
  | nil => intro v _; rw [List.nil_append, splitOnceColon, if_pos rfl]
  | cons b t ih =>
    intro v h
    have hb : b ≠ 58 := fun hb => h (hb ▸ List.mem_cons_self b t)
    rw [List.cons_append, splitOnceColon, if_neg hb,
      ih v (fun hm => h (List.mem_cons_of_mem b hm))]

/-- A line with no `':'` leaves headers and status untouched. -/
theorem processHeaderLine_no_colon (line : Str) (hs : Header) (st : Int)
    (h : (58 : Nat) ∉ line) : processHeaderLine line hs st = (hs, st) := by
  unfold processHeaderLine
  rw [splitOnceColon_none line h]

/-! ## The claims -/

/-- C2: `readWindowsLine` treats `\r` immediately followed by `\n` as
a line terminator at every position: this holds whenever at least one
byte follows the `\n` (third conjunct), but *fails* when `\r\n` are
the last two bytes of the stream — there `bufio.Peek(2)` reports
`io.EOF`, both peek branches are skipped, and the `\r` is kept in the
returned line (first two conjuncts: the stream `"ab\r\n"` yields the
line `"ab\r"`, not `"ab"`). -/
theorem claim_crlf_terminator :
    (readWindowsLine [] (str "ab\r\n") .eof = .ok (str "ab\r", [])) ∧
    (str "ab\r" ≠ str "ab") ∧
    (∀ (acc : Str) (p : Nat) (t : Str) (re : ReadEnd),
      readWindowsLine acc (13 :: 10 :: p :: t) re = .ok (acc, p :: t)) := by
  refine ⟨by decide, by decide, ?_⟩
  intro acc p t re
  rw [readWindowsLine_cr_two, if_neg (by simp), if_pos rfl]

/-- C8: at end of stream `readWindowsLine` returns a non-empty pending
buffer as a final line without error; end of stream with nothing
pending signals `io.EOF`; any other read error is propagated. -/
theorem claim_eof_final_line :
    (∀ (data acc : Str), (10 : Nat) ∉ data → acc ++ data ≠ [] →
      readWindowsLine acc data .eof = .ok (acc ++ data, [])) ∧
    (readWindowsLine [] [] .eof = .error .eof) ∧
    (∀ (data acc : Str) (e : Nat), (10 : Nat) ∉ data →
      readWindowsLine acc data (.err e) = .error (.err e)) :=
  ⟨readWindowsLine_eof_pending, by decide, readWindowsLine_err_propagates⟩

/-- Witness for C8 at concrete inputs. -/
theorem claim_eof_final_line_witness :
    readWindowsLine (str "partial") [] .eof = .ok (str "partial", []) ∧
    readWindowsLine [] (str "tail") (.err 9) = .error (.err 9) := by
  constructor
  · have h := claim_eof_final_line.1 [] (str "partial") (by decide) (by decide)
    simpa using h
  · exact claim_eof_final_line.2.2 (str "tail") [] 9 (by decide)

/-- C5: the status starts at 200; a line whose key lower-cases to
`status` sets the status to the integer value of the first three value
bytes when they parse, and leaves it unchanged on a short value or a
parse failure, raising no error.  Concretely, `Status: 404 Not Found`
yields 404 and `Status: abc` leaves 200. -/
theorem claim_status_line :
    (parseWindowsHeaders (str "Status: 404 Not Found\r\n\r\nbody") .eof =
      .ok ([], 404, str "body")) ∧
    (parseWindowsHeaders (str "Status: abc\r\n\r\nbody") .eof =
      .ok ([], 200, str "body")) ∧
    (∀ (k v : Str) (hs : Header) (st : Int), (58 : Nat) ∉ k →
      lowerStr (trimSpace k) = str "status" →
      processHeaderLine (k ++ 58 :: v) hs st =
        (hs, if 3 ≤ (trimSpace v).length
             then (atoi ((trimSpace v).take 3)).getD st
             else st)) := by
  refine ⟨?_, ?_, ?_⟩
  · have h1 : readWindowsLine [] (str "Status: 404 Not Found\r\n\r\nbody") .eof =
        .ok (str "Status: 404 Not Found", str "\r\nbody") := by decide
    have h2 : readWindowsLine [] (str "\r\nbody") .eof = .ok ([], str "body") := by decide
    rw [parseWindowsHeaders, parseHeadersLoop_line [] 200 h1 (by decide),
      parseHeadersLoop_blank _ _ h2]
    decide
  · have h1 : readWindowsLine [] (str "Status: abc\r\n\r\nbody") .eof =
        .ok (str "Status: abc", str "\r\nbody") := by decide
    have h2 : readWindowsLine [] (str "\r\nbody") .eof = .ok ([], str "body") := by decide
    rw [parseWindowsHeaders, parseHeadersLoop_line [] 200 h1 (by decide),
      parseHeadersLoop_blank _ _ h2]
    decide
  · intro k v hs st hk hstat
    unfold processHeaderLine
    rw [splitOnceColon_append k v hk]
    simp only [hstat, if_true]
    by_cases hlen : 3 ≤ (trimSpace v).length
    · simp only [hlen, if_true]
      cases hato : atoi ((trimSpace v).take 3) <;> simp [hato]
    · simp [hlen]

/-- Witness for C5's general conjunct at concrete inputs, including
the short-value branch. -/
theorem claim_status_line_witness :
    processHeaderLine (str "Status: 404 Not Found") [] 200 = ([], 404) ∧
    processHeaderLine (str "sTaTuS:99") [] 200 = ([], 200) := by
  constructor
  · have h := claim_status_line.2.2 (str "Status") (str " 404 Not Found") [] 200
      (by decide) (by decide)
    have e : str "Status" ++ 58 :: str " 404 Not Found" = str "Status: 404 Not Found" := by
      decide
    rw [e] at h
    rw [h]
    decide
  · have h := claim_status_line.2.2 (str "sTaTuS") (str "99") [] 200 (by decide) (by decide)
    have e : str "sTaTuS" ++ 58 :: str "99" = str "sTaTuS:99" := by decide
    rw [e] at h
    rw [h]
    decide

/-- C6: a line with no `':'` separator is skipped: it leaves headers
and status untouched (first conjunct), the parse continues with the
next line exactly as if the malformed line were absent (second
conjunct), and no error is raised (third conjunct, end to end). -/
theorem claim_malformed_line_skipped :
    (∀ (line : Str) (hs : Header) (st : Int), (58 : Nat) ∉ line →
      processHeaderLine line hs st = (hs, st)) ∧
    (∀ (line rest : Str) (re : ReadEnd) (hs : Header) (st : Int),
      line ≠ [] → (10 : Nat) ∉ line → (13 : Nat) ∉ line → (58 : Nat) ∉ line →
      parseHeadersLoop (line ++ 10 :: rest) re hs st = parseHeadersLoop rest re hs st) ∧
    (parseWindowsHeaders (str "garbage line\r\nA: 1\r\n\r\nZ") .eof =
      .ok ([(str "A", [str "1"])], 200, str "Z")) := by
  refine ⟨?_, ?_, ?_⟩
  · exact fun line hs st h => processHeaderLine_no_colon line hs st h
  · intro line rest re hs st hne hnl hcr hcolon
    rw [parseHeadersLoop_line hs st (readWindowsLine_content line [] rest re hnl hcr)
      (by simpa using hne)]
    rw [show ([] : Str) ++ line = line from rfl, processHeaderLine_no_colon line hs st hcolon]
  · have h1 : readWindowsLine [] (str "garbage line\r\nA: 1\r\n\r\nZ") .eof =
        .ok (str "garbage line", str "A: 1\r\n\r\nZ") := by decide
    have h2 : readWindowsLine [] (str "A: 1\r\n\r\nZ") .eof =
        .ok (str "A: 1", str "\r\nZ") := by decide
    have h3 : readWindowsLine [] (str "\r\nZ") .eof = .ok ([], str "Z") := by decide
    rw [parseWindowsHeaders, parseHeadersLoop_line [] 200 h1 (by decide),
      parseHeadersLoop_line _ _ h2 (by decide), parseHeadersLoop_blank _ _ h3]
    decide

/-- Witness for C6 at concrete inputs. -/
theorem claim_malformed_line_skipped_witness :
    processHeaderLine (str "no separator here") [] 200 = ([], 200) ∧
    parseHeadersLoop (str "bad\nA: 1\r\n\r\nZ") .eof [] 200 =
      parseHeadersLoop (str "A: 1\r\n\r\nZ") .eof [] 200 := by
  constructor
  · exact claim_malformed_line_skipped.1 (str "no separator here") [] 200 (by decide)
  · have h := claim_malformed_line_skipped.2.1 (str "bad") (str "A: 1\r\n\r\nZ")
      .eof [] 200 (by decide) (by decide) (by decide) (by decide)
    have e : str "bad" ++ 10 :: str "A: 1\r\n\r\nZ" = str "bad\nA: 1\r\n\r\nZ" := by
      decide
    rw [e] at h
    exact h

/-- C10: a successful parse forwards no header under the key
`"Status"`: lines whose key lower-cases to `status` only ever touch
the status code, and every key actually added is canonical with a
lower-casing different from `status`. -/
theorem claim_no_status_forwarded (data : Str) (re : ReadEnd) (hs : Header)
    (st : Int) (rest : Str)
    (h : parseWindowsHeaders data re = .ok (hs, st, rest)) :
    headerValues hs (str "Status") = [] := by
  refine parseWindowsHeaders_inv
    (fun hs _ => headerValues hs (str "Status") = []) ?_ data re hs st rest rfl h
  intro line hs st _ hp
  exact processHeaderLine_status_values line hs st hp

/-- Witness for C10: a block whose `Status` value does not even parse
still forwards no `Status` header. -/
theorem claim_no_status_forwarded_witness :
    parseWindowsHeaders (str "Status: abc\r\nA: 1\r\n\r\nZ") .eof =
      .ok ([(str "A", [str "1"])], 200, str "Z") ∧
    headerValues [(str "A", [str "1"])] (str "Status") = [] := by
  have h1 : readWindowsLine [] (str "Status: abc\r\nA: 1\r\n\r\nZ") .eof =
      .ok (str "Status: abc", str "A: 1\r\n\r\nZ") := by decide
  have h2 : readWindowsLine [] (str "A: 1\r\n\r\nZ") .eof =
      .ok (str "A: 1", str "\r\nZ") := by decide
  have h3 : readWindowsLine [] (str "\r\nZ") .eof = .ok ([], str "Z") := by decide
  have hparse : parseWindowsHeaders (str "Status: abc\r\nA: 1\r\n\r\nZ") .eof =
      .ok ([(str "A", [str "1"])], 200, str "Z") := by
    rw [parseWindowsHeaders, parseHeadersLoop_line [] 200 h1 (by decide),
      parseHeadersLoop_line _ _ h2 (by decide), parseHeadersLoop_blank _ _ h3]
    decide
  exact ⟨hparse, claim_no_status_forwarded _ .eof _ 200 (str "Z") hparse⟩

/-- C4 counterexample: the header map is a Go map, whose `range` order
is unspecified.  For the block `"B: 1\r\nA: 2\r\n\r\nZ"` the insertion
order of distinct keys is `[B, A]`, yet the order `[A, B]` is a legal
`range` order of the parsed map, and applying the headers to the
response in that order lists the distinct keys as `[A, B]` — so the
application does not preserve the insertion order of distinct keys. -/
theorem claim_header_order_counterexample :
    (parseWindowsHeaders (str "B: 1\r\nA: 2\r\n\r\nZ") .eof =
      .ok ([(str "B", [str "1"]), (str "A", [str "2"])], 200, str "Z")) ∧
    validRangeOrder [(str "B", [str "1"]), (str "A", [str "2"])]
      [(str "A", [str "2"]), (str "B", [str "1"])] ∧
    ((applyHeaders [] [(str "A", [str "2"]), (str "B", [str "1"])]).map Prod.fst =
      [str "A", str "B"]) ∧
    ([str "A", str "B"] ≠ [str "B", str "A"]) := by
  refine ⟨?_, ?_, by decide, by decide⟩
  · have h1 : readWindowsLine [] (str "B: 1\r\nA: 2\r\n\r\nZ") .eof =
        .ok (str "B: 1", str "A: 2\r\n\r\nZ") := by decide
    have h2 : readWindowsLine [] (str "A: 2\r\n\r\nZ") .eof =
        .ok (str "A: 2", str "\r\nZ") := by decide
    have h3 : readWindowsLine [] (str "\r\nZ") .eof = .ok ([], str "Z") := by decide
    rw [parseWindowsHeaders, parseHeadersLoop_line [] 200 h1 (by decide),
      parseHeadersLoop_line _ _ h2 (by decide), parseHeadersLoop_blank _ _ h3]
    decide
  · exact List.Perm.swap _ _ _

/-- C4 amended: the parsed map preserves, for every (possibly
repeated) key, all of its values in original order (concrete first
conjunct), and applying the parsed headers to the response reproduces
exactly the per-key value lists whatever `range` order the map
iteration yields; only the relative order of *distinct* keys is up to
the unspecified iteration order. -/
theorem claim_header_values_preserved :
    (parseWindowsHeaders (str "A: 1\r\nA: 2\r\n\r\nZ") .eof =
      .ok ([(str "A", [str "1", str "2"])], 200, str "Z")) ∧
    (∀ (data : Str) (re : ReadEnd) (hs : Header) (st : Int) (rest : Str)
       (ord : List (Str × List Str)) (k : Str),
      parseWindowsHeaders data re = .ok (hs, st, rest) →
      validRangeOrder hs ord →
      headerValues (applyHeaders [] ord) k = headerValues hs k) := by
  constructor
  · have h1 : readWindowsLine [] (str "A: 1\r\nA: 2\r\n\r\nZ") .eof =
        .ok (str "A: 1", str "A: 2\r\n\r\nZ") := by decide
    have h2 : readWindowsLine [] (str "A: 2\r\n\r\nZ") .eof =
        .ok (str "A: 2", str "\r\nZ") := by decide
    have h3 : readWindowsLine [] (str "\r\nZ") .eof = .ok ([], str "Z") := by decide
    rw [parseWindowsHeaders, parseHeadersLoop_line [] 200 h1 (by decide),
      parseHeadersLoop_line _ _ h2 (by decide), parseHeadersLoop_blank _ _ h3]
    decide
  · intro data re hs st rest ord k hparse hord
    exact applyHeaders_values hs ord k
      (parseWindowsHeaders_WF data re hs st rest hparse) hord

/-- Witness for C4's general conjunct: the repeated-key map from the
first conjunct, applied to the response, keeps both values in order. -/
theorem claim_header_values_preserved_witness :
    headerValues (applyHeaders [] [(str "A", [str "1", str "2"])]) (str "A") =
      [str "1", str "2"] := by
  have h := claim_header_values_preserved.2 (str "A: 1\r\nA: 2\r\n\r\nZ") .eof
    [(str "A", [str "1", str "2"])] 200 (str "Z") [(str "A", [str "1", str "2"])]
    (str "A") claim_header_values_preserved.1 (List.Perm.refl _)
  rw [h]
  decide

/-- C9 counterexample: `instantWriter.Write` flushes unconditionally —
with an underlying writer whose write fails (here returning `(0, err
5)`), the failed write is still followed by a `Flush` call, contrary
to the claim that only successful writes are. -/
theorem claim_instant_writer_counterexample :
    ((instantWriterWrite (fun _ => (0, some 5)) (str "x")).1 = (0, some 5)) ∧
    ((instantWriterWrite (fun _ => (0, some 5)) (str "x")).2 =
      [.write (str "x"), .flush]) ∧
    (WriterEvent.flush ∈ (instantWriterWrite (fun _ => (0, some 5)) (str "x")).2) := by
  refine ⟨rfl, rfl, by decide⟩

/-- C9 amended: `instantWriter.Write` is a pure pass-through of the
underlying writer's result, and it issues exactly one `Flush` after
*every* write call, whether or not the write succeeded. -/
theorem claim_instant_writer_passthrough (underlying : Str → Nat × Option Nat) (b : Str) :
    (instantWriterWrite underlying b).1 = underlying b ∧
    (instantWriterWrite underlying b).2 = [.write b, .flush] :=
  ⟨rfl, rfl⟩

/-- The final request-state update of the reframing block sets exactly
the fields the work-around is about. -/
theorem reframeUpdate_spec (r : ChunkReq) (size : Nat)
    (hcl : headerValues r.header (str "Content-Length") = []) :
    (reframeUpdate r size).transferEncoding = [] ∧
    (reframeUpdate r size).contentLength = (size : Int) ∧
    headerValues (reframeUpdate r size).header (str "Transfer-Encoding") = [] ∧
    headerValues (reframeUpdate r size).header (str "Content-Length") =
      [natToDec size] := by
  have hTE : canonicalMIMEHeaderKey (str "Transfer-Encoding") =
      str "Transfer-Encoding" := by decide
  have hCL : canonicalMIMEHeaderKey (str "Content-Length") = str "Content-Length" := by
    decide
  have hne : str "Content-Length" ≠ str "Transfer-Encoding" := by decide
  refine ⟨rfl, rfl, ?_, ?_⟩
  · show headerValues (headerAdd (headerDel r.header (str "Transfer-Encoding"))
      (str "Content-Length") (natToDec size)) (str "Transfer-Encoding") = []
    rw [headerAdd, headerValues_addRaw, hCL, if_neg hne]
    unfold headerDel
    rw [hTE]
    exact headerValues_delRaw_self r.header _
  · show headerValues (headerAdd (headerDel r.header (str "Transfer-Encoding"))
      (str "Content-Length") (natToDec size)) (str "Content-Length") = [natToDec size]
    rw [headerAdd, headerValues_addRaw, hCL, if_pos rfl]
    unfold headerDel
    rw [hTE, headerValues_delRaw_other r.header _ _ hne, hcl]
    rfl

/-- C1: reframing a chunked request of body size `S` with buffer limit
`L` declares content length exactly `S`; the body is served from the
in-memory buffer when `S < L` and from a temporary file when `S ≥ L`;
the transfer-encoding indicator is cleared (field emptied, header
removed) and a `Content-Length` header equal to `S` is set. -/
theorem claim_reframe_chunked (body : Str) (limit : Nat) (r : ChunkReq)
    (hchunk : isChunkedTE r.transferEncoding = true)
    (hcl : headerValues r.header (str "Content-Length") = []) :
    (serveReframe body limit r).1.contentLength = (body.length : Int) ∧
    (body.length < limit → (serveReframe body limit r).2 = some (.memory body)) ∧
    (limit ≤ body.length → (serveReframe body limit r).2 = some (.tempfile body)) ∧
    (serveReframe body limit r).1.transferEncoding = [] ∧
    headerValues (serveReframe body limit r).1.header (str "Transfer-Encoding") = [] ∧
    headerValues (serveReframe body limit r).1.header (str "Content-Length") =
      [natToDec body.length] := by
  unfold serveReframe
  rw [if_pos hchunk]
  unfold reframeChunked
  by_cases hsz : min body.length limit = limit
  · have hle : limit ≤ body.length := by
      rcases Nat.le_total limit body.length with h | h
      · exact h
      · rw [Nat.min_eq_left h] at hsz
        omega
    have htot : min body.length limit + (body.length - limit) = body.length := by
      rw [Nat.min_eq_right hle]
      omega
    rw [if_pos hsz]
    dsimp only
    have spec := reframeUpdate_spec r (min body.length limit + (body.length - limit)) hcl
    refine ⟨?_, ?_, ?_, ?_, ?_, ?_⟩
    · rw [spec.2.1]
      exact_mod_cast htot
    · intro hlt
      exact absurd hlt (by omega)
    · intro _
      rw [List.take_append_drop]
    · exact spec.1
    · exact spec.2.2.1
    · rw [spec.2.2.2, htot]
  · have hlt : body.length < limit := by
      rcases Nat.lt_or_ge body.length limit with h | h
      · exact h
      · exact absurd (Nat.min_eq_right h) hsz
    have hmin : min body.length limit = body.length := Nat.min_eq_left (le_of_lt hlt)
    rw [if_neg hsz]
    dsimp only
    have spec := reframeUpdate_spec r (min body.length limit) hcl
    refine ⟨?_, ?_, ?_, ?_, ?_, ?_⟩
    · rw [spec.2.1]
      exact_mod_cast hmin
    · intro _
      rw [List.take_of_length_le (le_of_lt hlt)]
    · intro hge
      exact absurd hge (by omega)
    · exact spec.1
    · exact spec.2.2.1
    · rw [spec.2.2.2, hmin]

/-- Witness for C1: a 5-byte chunked body under limit 10 stays in
memory with content length 5; a 3-byte body under limit 2 spills to a
temporary file holding the whole body. -/
theorem claim_reframe_chunked_witness :
    (serveReframe (str "hello") 10 ⟨[str "chunked"], [], -1⟩).1.contentLength = 5 ∧
    (serveReframe (str "hello") 10 ⟨[str "chunked"], [], -1⟩).2 =
      some (.memory (str "hello")) ∧
    (serveReframe (str "hel") 2 ⟨[str "chunked"], [], -1⟩).2 =
      some (.tempfile (str "hel")) ∧
    headerValues (serveReframe (str "hello") 10
      ⟨[str "chunked"], [], -1⟩).1.header (str "Content-Length") = [str "5"] := by
  have h1 := claim_reframe_chunked (str "hello") 10 ⟨[str "chunked"], [], -1⟩
    (by decide) (by decide)
  have h2 := claim_reframe_chunked (str "hel") 2 ⟨[str "chunked"], [], -1⟩
    (by decide) (by decide)
  refine ⟨?_, h1.2.1 (by decide), h2.2.2.1 (by decide), ?_⟩
  · rw [h1.1]
    decide
  · rw [h1.2.2.2.2.2]
    decide

/-! ## Environment entry keys -/

theorem entryKey_envEntry : ∀ (k v : Str), (61 : Nat) ∉ k →
    entryKey (envEntry k v) = k := by
  intro k
  induction k with
  | nil => intro v _; rfl
  | cons c t ih =>
    intro v h
    have hc : c ≠ 61 := fun hc => h (hc ▸ List.mem_cons_self c t)
    simp only [envEntry, List.cons_append, entryKey, List.takeWhile_cons]
    rw [if_pos (by simp [hc])]
    exact congrArg _ (ih v (fun hm => h (List.mem_cons_of_mem c hm)))

/-- Every entry `headerEnv` produces has a key starting with `'H'`
(72), the first byte of the `HTTP_` marker. -/
theorem headerEnv_entryKey (h : Header) (e : Str) (he : e ∈ headerEnv h) :
    ∃ x, entryKey e = 72 :: x := by
  unfold headerEnv at he
  rw [List.mem_filterMap] at he
  obtain ⟨kv, _, hkv⟩ := he
  cases hv2 : kv.2 with
  | nil => rw [hv2] at hkv; simp at hkv
  | cons v vs =>
    rw [hv2] at hkv
    simp only [Option.some.injEq] at hkv
    rw [← hkv]
    have hmark : str "HTTP_" = [72, 84, 84, 80, 95] := by decide
    simp only [envEntry, hmark, List.cons_append, List.append_assoc, List.nil_append]
    simp only [entryKey, List.takeWhile_cons]
    exact ⟨_, rfl⟩

theorem headerEnv_count_zero (h : Header) (k : Str)
    (hne : ∀ x, k ≠ 72 :: x) : ((headerEnv h).map entryKey).count k = 0 := by
  rw [List.count_eq_zero]
  intro hmem
  rw [List.mem_map] at hmem
  obtain ⟨e, he, hek⟩ := hmem
  obtain ⟨x, hx⟩ := headerEnv_entryKey h e he
  exact hne x (by rw [← hek, hx])

/-- The keys of the environment entries, block by block. -/
theorem buildEnv_keys (r : WinRequest) (hEnv : List Str) (inh : List (Str × Str)) :
    (buildEnv r hEnv inh).map entryKey =
      [str "REQUEST_METHOD", str "SCRIPT_NAME", str "PATH_INFO", str "QUERY_STRING",
       str "CONTENT_TYPE", str "CONTENT_LENGTH", str "SERVER_NAME", str "SERVER_PORT",
       str "SERVER_PROTOCOL", str "SERVER_SOFTWARE", str "GATEWAY_INTERFACE",
       str "REMOTE_ADDR", str "REMOTE_HOST"]
      ++ (headerEnv r.header).map entryKey ++ hEnv.map entryKey
      ++ ((inh.filterMap fun kv =>
            if kv.2 ≠ [] then some (envEntry kv.1 kv.2) else none).map entryKey) := by
  unfold buildEnv
  simp only [List.map_append, List.cons_append, List.map_cons, List.nil_append]
  rw [entryKey_envEntry _ _ (by decide), entryKey_envEntry _ _ (by decide),
    entryKey_envEntry _ _ (by decide), entryKey_envEntry _ _ (by decide),
    entryKey_envEntry _ _ (by decide), entryKey_envEntry _ _ (by decide),
    entryKey_envEntry _ _ (by decide), entryKey_envEntry _ _ (by decide),
    entryKey_envEntry _ _ (by decide), entryKey_envEntry _ _ (by decide),
    entryKey_envEntry _ _ (by decide), entryKey_envEntry _ _ (by decide),
    entryKey_envEntry _ _ (by decide)]

theorem serveHTTPEnv_keys (sp ex sn se u : Str) :
    (serveHTTPEnv sp ex sn se u).map entryKey =
      [str "PATH_INFO", str "SCRIPT_FILENAME", str "SCRIPT_NAME",
       str "SCRIPT_EXEC", str "REMOTE_USER"] := by
  unfold serveHTTPEnv
  simp only [List.map_cons, List.map_nil]
  rw [entryKey_envEntry _ _ (by decide), entryKey_envEntry _ _ (by decide),
    entryKey_envEntry _ _ (by decide), entryKey_envEntry _ _ (by decide),
    entryKey_envEntry _ _ (by decide)]

/-- C3 counterexample: at a concrete request, the final environment
(the `buildEnv` fixed variables followed by the handler `Env` entries
that `ServeHTTP` appends) carries the keys `PATH_INFO` and
`SCRIPT_NAME` twice each. -/
theorem claim_env_unique_counterexample :
    (((buildEnv
        ⟨str "GET", str "/foo/bar", str "", str "localhost:9080", str "HTTP/1.1",
         str "127.0.0.1:5555", 0, [], false⟩
        (serveHTTPEnv (str "/bar") (str "/srv/example") (str "/foo")
          (str "/srv/example -v") (str "alice")) []).map entryKey).count
      (str "PATH_INFO") = 2) ∧
    (((buildEnv
        ⟨str "GET", str "/foo/bar", str "", str "localhost:9080", str "HTTP/1.1",
         str "127.0.0.1:5555", 0, [], false⟩
        (serveHTTPEnv (str "/bar") (str "/srv/example") (str "/foo")
          (str "/srv/example -v") (str "alice")) []).map entryKey).count
      (str "SCRIPT_NAME") = 2) ∧ ¬(2 = 1) := by
  refine ⟨by decide, by decide, by decide⟩

/-- C3 amended: keys are *not* unique in the final environment — for
every request, `PATH_INFO` and `SCRIPT_NAME` occur exactly twice (once
among `buildEnv`'s fixed variables, once among the handler `Env`
entries appended by `ServeHTTP`); with no handler entries the fixed
block alone carries each key once, and its thirteen keys are pairwise
distinct. -/
theorem claim_env_duplicate_keys (r : WinRequest) (sp ex sn se u : Str) :
    (((buildEnv r (serveHTTPEnv sp ex sn se u) []).map entryKey).count
      (str "PATH_INFO") = 2) ∧
    (((buildEnv r (serveHTTPEnv sp ex sn se u) []).map entryKey).count
      (str "SCRIPT_NAME") = 2) ∧
    (((buildEnv r [] []).map entryKey).count (str "PATH_INFO") = 1) ∧
    (((buildEnv r [] []).map entryKey).count (str "SCRIPT_NAME") = 1) := by
  have hP : ∀ x, str "PATH_INFO" ≠ 72 :: x := by
    intro x hx
    have h80 : (str "PATH_INFO").head? = some 80 := by decide
    rw [hx] at h80
    simp at h80
  have hS : ∀ x, str "SCRIPT_NAME" ≠ 72 :: x := by
    intro x hx
    have h83 : (str "SCRIPT_NAME").head? = some 83 := by decide
    rw [hx] at h83
    simp at h83
  refine ⟨?_, ?_, ?_, ?_⟩ <;>
    rw [buildEnv_keys] <;>
    simp only [List.count_append, serveHTTPEnv_keys, List.filterMap_nil, List.map_nil] <;>
    rw [headerEnv_count_zero r.header _ (by first | exact hP | exact hS)] <;>
    decide

/-- C7: each request header with at least one value yields exactly one
environment entry `HTTP_<NAME>=<first value>`, where `<NAME>` is the
header name upper-cased with `-` replaced by `_`: membership of that
entry (first conjunct), one entry per populated header (fourth
conjunct), the concrete `X-Foo: bar` round trip, a multi-valued header
contributing only its first value, and no entry keyed `HTTP-X-FOO`
anywhere in the built environment. -/
theorem claim_http_header_env :
    (∀ (h : Header) (k v : Str) (vs : List Str), (k, v :: vs) ∈ h →
      envEntry (str "HTTP_" ++ envHeaderName k) v ∈ headerEnv h) ∧
    (headerEnv [(str "X-Foo", [str "bar"])] = [str "HTTP_X_FOO=bar"]) ∧
    (headerEnv [(str "X-Foo", [str "bar", str "baz"])] = [str "HTTP_X_FOO=bar"]) ∧
    (∀ (h : Header),
      (headerEnv h).length = (h.filter (fun kv => !kv.2.isEmpty)).length) ∧
    (∀ e ∈ buildEnv
        ⟨str "GET", str "/", str "", str "host", str "HTTP/1.1", str "r", 0,
         [(str "X-Foo", [str "bar"])], false⟩ [] [],
      entryKey e ≠ str "HTTP-X-FOO") := by
  refine ⟨?_, by decide, by decide, ?_, by decide⟩
  · intro h k v vs hmem
    unfold headerEnv
    exact List.mem_filterMap.mpr ⟨(k, v :: vs), hmem, rfl⟩
  · intro h
    induction h with
    | nil => rfl
    | cons kv t ih =>
      cases hv : kv.2 with
      | nil =>
        simp only [headerEnv, List.filterMap_cons, hv, List.filter_cons,
          List.isEmpty_nil, Bool.not_true, if_false] at ih ⊢
        exact ih
      | cons v vs =>
        simp only [headerEnv, List.filterMap_cons, hv, List.filter_cons,
          List.isEmpty_cons, Bool.not_false, if_true, List.length_cons] at ih ⊢
        exact congrArg Nat.succ ih

/-- Witness for C7 at the concrete `X-Foo: bar` request. -/
theorem claim_http_header_env_witness :
    envEntry (str "HTTP_" ++ envHeaderName (str "X-Foo")) (str "bar") ∈
      headerEnv [(str "X-Foo", [str "bar"])] ∧
    (headerEnv [((str "X-Foo" : Str), [str "bar"])]).length =
      ([((str "X-Foo" : Str), [str "bar"])].filter (fun kv => !kv.2.isEmpty)).length :=
  ⟨claim_http_header_env.1 _ (str "X-Foo") (str "bar") [] (by decide),
    claim_http_header_env.2.2.2.1 _⟩

end CaddyCGI
